import Mathlib

/-!
Verification development for the `backtester` repository (event-driven
backtesting engine).  The Python source is shallowly embedded: Python floats
are modelled as rationals (`ℚ`), fallible code returns `Except` / `Option`,
and stateful methods become explicit state-passing functions.  Tickers are
`String`s as in the source; per-ticker dictionaries become total functions
`String → ℚ` (Python `defaultdict` semantics; plain-dict key errors are
modelled with explicit membership checks returning `Except.error`).
-/

namespace Backtester

/-- One error type for the whole development.  `negativeCash` models
`NegativeCashException`, `keyError` a Python `KeyError`, `noData` the
`IndexError` raised when no bar is available, and `attrNone` the
`AttributeError` raised by dereferencing `None`. -/
inductive Err where
  | negativeCash (cash : ℚ)
  | keyError
  | noData
  | attrNone
  deriving Repr, DecidableEq

/-- `BarTuple` from `util/util.py`.  The `Index` timestamp (a datetime in the
source) is modelled as rational epoch seconds; `openp` is the `open` field
(renamed: `open` is a Lean keyword). -/
structure Bar where
  Index : ℚ
  openp : ℚ
  high : ℚ
  low : ℚ
  close : ℚ
  volume : ℚ
  deriving Repr, DecidableEq

/-- `DirectionType` enum.  Modelled from the spec: the file
`enums/direction_type.py` is not in the source tree; values are fixed by the
constructions `DirectionType(1)` (BUY) and `DirectionType(-1)` (SELL) in
`naive_portfolio.py` and by `Order{direction∈{BUY,SELL}}` in the spec. -/
inductive DirectionType where
  | BUY
  | SELL
  deriving Repr, DecidableEq

/-- The `.value` of the direction enum member. -/
def DirectionType.val : DirectionType → ℚ
  | .BUY => 1
  | .SELL => -1

/-- `OrderType` enum.  Modelled from the spec: `enums/order_type.py` is not in
the source tree; the spec gives `type∈{MKT,MOC}`. -/
inductive OrderType where
  | MKT
  | MOC
  deriving Repr, DecidableEq

/-- `SignalType` from `enums/signal_type.py`. -/
inductive SignalType where
  | LONG
  | SHORT
  | HOLD
  | EXIT
  deriving Repr, DecidableEq

/-- The `.value` of the signal enum member (`LONG = 1`, `SHORT = -1`,
`HOLD = 0`, `EXIT = -2`). -/
def SignalType.val : SignalType → ℤ
  | .LONG => 1
  | .SHORT => -1
  | .HOLD => 0
  | .EXIT => -2

/-- `OrderEvent` from `events/order_event.py` (the `uuid` and the constant
`type` tag are omitted). -/
structure OrderEvent where
  direction : DirectionType
  ticker : String
  strategy_name : String
  order_type : OrderType
  quantity : ℚ
  timestamp : ℚ
  deriving Repr, DecidableEq

/-- `SignalEvent` from `events/signal_event.py`. -/
structure SignalEvent where
  timestamp : ℚ
  ticker : String
  strategy : String
  signal_type : SignalType
  strength : ℚ
  deriving Repr, DecidableEq

/-- `FillEvent.calculate_ib_commission` from `events/fill_event.py`, as a
function of the already-set `quantity` and `fill_cost` fields
(`1.3 = 13/10`, `0.013 = 13/1000`, `0.008 = 1/125`, `0.5/100 = 1/200`). -/
def calculate_ib_commission (quantity fill_cost : ℚ) : ℚ :=
  let full_cost : ℚ :=
    if quantity ≤ 500 then max (13/10) (13/1000 * quantity)
    else max (13/10) (1/125 * quantity)
  min full_cost (1/200 * quantity * fill_cost)

/-- `FillEvent` from `events/fill_event.py` (constant `type` tag omitted). -/
structure FillEvent where
  timestamp : ℚ
  ticker : String
  exchange : String
  quantity : ℚ
  direction : DirectionType
  fill_cost : ℚ
  unit_cost : ℚ
  slippage : ℚ
  commission : ℚ
  deriving Repr, DecidableEq

/-- The `FillEvent.__init__` constructor: when `commission` is `None` the
commission is computed by `calculate_ib_commission`. -/
def FillEvent.make (timestamp : ℚ) (ticker exchange : String) (quantity : ℚ)
    (direction : DirectionType) (fill_cost unit_cost slippage : ℚ)
    (commission : Option ℚ) : FillEvent :=
  { timestamp := timestamp
    ticker := ticker
    exchange := exchange
    quantity := quantity
    direction := direction
    fill_cost := fill_cost
    unit_cost := unit_cost
    slippage := slippage
    commission :=
      match commission with
      | none => calculate_ib_commission quantity fill_cost
      | some c => c }

/-- The commission formula as the claim/spec words it:
`min(max(1.3, k·quantity), 0.005·fill_cost)` with `k = 0.013` for
`quantity ≤ 500` and `k = 0.008` otherwise.  This definition follows the
spec, not the source, and is only used to compare against the source. -/
def ib_commission_claimed (quantity fill_cost : ℚ) : ℚ :=
  min (max (13/10) ((if quantity ≤ 500 then (13/1000 : ℚ) else 1/125) * quantity))
    (1/200 * fill_cost)

/-- Python slice `l[i:]` for an integer `i` (negative `i` counts from the
end, clamped at the start of the list). -/
def pySliceFrom (i : ℤ) {α : Type} (l : List α) : List α :=
  if 0 ≤ i then l.drop i.toNat
  else l.drop (l.length - (-i).toNat)

/-- Python `int()` applied to a float: truncation toward zero. -/
def pyIntTrunc (q : ℚ) : ℤ :=
  if 0 ≤ q then ⌊q⌋ else ⌈q⌉

/-! ## ATR position sizer (`util/position_sizer/atr_position_sizer.py`) -/

/-- Configuration of `ATRPositionSizer.__init__`. -/
structure ATRConfig where
  atr_window : ℕ
  atr_multiplier : ℚ
  deriving Repr, DecidableEq

/-- The per-row true-range values that `_calc_atr` builds with pandas: column
`h-l`, and `|h − close.shift(1)|`, `|l − close.shift(1)|` which are `NaN` on
the first row.  `np.nanmax(..., axis=1)` therefore yields `h − l` for the
first row and the full three-way max for every later row. -/
def trList (bars : List Bar) : List ℚ :=
  match bars with
  | [] => []
  | b0 :: rest =>
      (b0.high - b0.low) ::
        (rest.zip (b0 :: rest)).map
          (fun p => max (p.1.high - p.1.low)
            (max |p.1.high - p.2.close| |p.1.low - p.2.close|))

/-- `ATRPositionSizer._calc_atr`.  With no stored ATR yet, it seeds from
`history[-atr_window-1:]` via `np.nanmean` of the row-wise `np.nanmax` over
the `atr_window + 1` rows (see `trList`); otherwise it applies Wilder's
smoothing to the last two bars.  The Wilder branch reads `history[-2]`, which
raises `IndexError` in Python when fewer than two bars exist; that case is
modelled as `none`. -/
def calcAtr (atr_window : ℕ) (stored : List ℚ) (history : List Bar) : Option ℚ :=
  match stored.getLast? with
  | none =>
      let bar_data := pySliceFrom (-(atr_window + 1 : ℤ)) history
      if bar_data.length < atr_window + 1 then none
      else some ((trList bar_data).sum / (atr_window + 1 : ℚ))
  | some prevAtr =>
      match history.reverse with
      | cur :: prev :: _ =>
          let tr := max (cur.high - cur.low)
            (max |cur.high - prev.close| |cur.low - prev.close|)
          some (1 / (atr_window : ℚ) * tr + (1 - 1 / (atr_window : ℚ)) * prevAtr)
      | _ => none

/-- `ATRPositionSizer.on_interval` restricted to one ticker: append the new
ATR when `_calc_atr` returned a truthy (non-`None`, non-zero) value. -/
def atrOnInterval (atr_window : ℕ) (stored : List ℚ) (history : List Bar) : List ℚ :=
  match calcAtr atr_window stored history with
  | some a => if a ≠ 0 then stored ++ [a] else stored
  | none => stored

/-- The ATR seed as the spec words it: the arithmetic mean of True Range over
`atr_window` bars, each true range using the previous bar's close.  This
definition follows the spec, not the source, and is only used to compare
against the source. -/
def atr_seed_claimed (atr_window : ℕ) (history : List Bar) : Option ℚ :=
  let bar_data := pySliceFrom (-(atr_window + 1 : ℤ)) history
  if bar_data.length < atr_window + 1 then none
  else some ((trList bar_data).tail.sum / (atr_window : ℚ))

/-- `ATRPositionSizer.get_position_size` as a function of the stored ATR list
for the ticker.  `if atr:` is Python float truthiness, i.e. `atr ≠ 0`;
`math.floor` floors, while the decimal branch uses `int()` (truncation). -/
def get_position_size (cfg : ATRConfig) (stored : List ℚ)
    (risk_per_trade total_holdings : ℚ) (rounding : ℕ) : Option ℚ :=
  match stored.getLast? with
  | none => none
  | some atr =>
      if atr ≠ 0 then
        let capital_to_risk := risk_per_trade * total_holdings
        let position_size := capital_to_risk / (atr * cfg.atr_multiplier)
        if rounding = 0 then some ((⌊position_size⌋ : ℤ) : ℚ)
        else
          let multiplier : ℚ := 10 ^ rounding
          some (((pyIntTrunc (position_size * multiplier) : ℤ) : ℚ) / multiplier)
      else none

/-! ## Moving-average crossover (`strategies/moving_average_crossover.py`) -/

/-- `MovingAverageCrossover.generate_signals` restricted to one
`(ticker, interval)` entry of `histories`: returns the emitted signal kind
(if any) and the updated `current_positions[ticker]` state.  The source skips
an empty history (`continue`), returns when fewer than `long_window + 1` bars
exist, drops the most recent bar (`data[:-1]`), and sums closes over the
reversed window (`idx < short_window` restricts the short sum to the most
recent `short_window` bars of that window). -/
def generate_signals (short_window long_window : ℕ) (cur_pos : ℤ)
    (history : List Bar) : Option SignalType × ℤ :=
  if history.isEmpty then (none, cur_pos)
  else
    let data := pySliceFrom (-(long_window + 1 : ℤ)) history
    if data.length < long_window + 1 then (none, cur_pos)
    else
      let data := data.dropLast
      let short_avg := ((data.reverse.take short_window).map Bar.close).sum / (short_window : ℚ)
      let long_avg := ((data.map Bar.close).sum) / (long_window : ℚ)
      if short_avg < long_avg ∧ 0 ≤ cur_pos then (some .SHORT, -1)
      else if long_avg < short_avg ∧ cur_pos ≤ 0 then (some .LONG, 1)
      else (none, cur_pos)

/-! ## Simple risk manager (`util/risk_manager/simple_risk_manager.py`) -/

/-- Configuration of `SimpleRiskManager.__init__` (`RATE_INTERVAL` is the
constant `1`). -/
structure RMConfig where
  MAX_ORDER_QTY : ℚ
  MAX_NOTIONAL_VAL : ℚ
  MAX_DAILY_LOSS : ℚ
  MAX_GROSS_EXPOSURE : ℚ
  MAX_NET_EXPOSURE : ℚ
  PARTICIPATION_WINDOW : ℤ
  PARTICIPATION_LIMIT : ℚ
  RATE_LIMIT : ℚ
  deriving Repr, DecidableEq

/-- The slice of the holdings dictionary the risk manager reads:
`holdings["total"]`, `holdings[t]["value"]`, `holdings[t]["position"]`. -/
structure RMHoldings where
  total : ℚ
  value : String → ℚ
  position : String → ℚ

/-- `np.sign` on a rational. -/
def npSign (q : ℚ) : ℚ :=
  if 0 < q then 1 else if q < 0 then -1 else 0

/-- `_max_order_quantity_check`: `true` when the check passes (no
`ValueError`). -/
def max_order_quantity_check (cfg : RMConfig) (order : OrderEvent) : Bool :=
  !(cfg.MAX_ORDER_QTY ≠ -1 ∧ cfg.MAX_ORDER_QTY < order.quantity : Bool)

/-- `_max_notional_value_check`: `true` when the check passes. -/
def max_notional_value_check (cfg : RMConfig) (order : OrderEvent)
    (estimated_current_price : ℚ) : Bool :=
  !(cfg.MAX_NOTIONAL_VAL ≠ -1 ∧
    cfg.MAX_NOTIONAL_VAL < order.quantity * estimated_current_price : Bool)

/-- `_daily_loss_limit_check`: `true` when the check passes. -/
def daily_loss_limit_check (cfg : RMConfig) (order : OrderEvent)
    (holdings : RMHoldings) (open_value : ℚ) : Bool :=
  if open_value ≠ 0 then
    let pnl := (holdings.total - open_value) / open_value
    let order_signed_quantity := order.direction.val * order.quantity
    let net_direction := npSign order_signed_quantity * npSign (holdings.position order.ticker)
    !(pnl < -cfg.MAX_DAILY_LOSS ∧ 0 < net_direction : Bool)
  else true

/-- `_gross_exposure_check`: `true` when the check passes. -/
def gross_exposure_check (cfg : RMConfig) (order : OrderEvent)
    (symbol_list : List String) (holdings : RMHoldings)
    (estimated_current_price : ℚ) : Bool :=
  let gross_exposure :=
    (symbol_list.map (fun ticker =>
      if ticker = order.ticker then
        |holdings.value ticker + order.quantity * estimated_current_price * order.direction.val|
      else |holdings.value ticker|)).sum
  !(cfg.MAX_GROSS_EXPOSURE ≠ -1 ∧ cfg.MAX_GROSS_EXPOSURE < gross_exposure : Bool)

/-- `_net_exposure_check`: `true` when the check passes. -/
def net_exposure_check (cfg : RMConfig) (order : OrderEvent)
    (symbol_list : List String) (holdings : RMHoldings)
    (estimated_current_price : ℚ) : Bool :=
  let net_exposure := (symbol_list.map (fun ticker => holdings.value ticker)).sum
  let estimated_net_future_exposure :=
    net_exposure + order.quantity * estimated_current_price * order.direction.val
  !(cfg.MAX_NET_EXPOSURE ≠ -1 ∧
    cfg.MAX_NET_EXPOSURE < |estimated_net_future_exposure| : Bool)

/-- `_participation_check`: `true` when the check passes.  The window slice is
Python `history[-PARTICIPATION_WINDOW:]`. -/
def participation_check (cfg : RMConfig) (order : OrderEvent)
    (history : List Bar) : Bool :=
  if cfg.PARTICIPATION_WINDOW ≤ (history.length : ℤ) then
    let total_volume := ((pySliceFrom (-cfg.PARTICIPATION_WINDOW) history).map Bar.volume).sum
    let avg_volume := total_volume / (cfg.PARTICIPATION_WINDOW : ℚ)
    if avg_volume ≠ 0 then
      !(cfg.PARTICIPATION_LIMIT < order.quantity / avg_volume : Bool)
    else false
  else true

/-- The deque pruning inside `_rate_limit_check`: drop timestamps older than
`now − RATE_INTERVAL` from the front. -/
def rateLimitPrune (order_timestamps : List ℚ) (now : ℚ) : List ℚ :=
  order_timestamps.dropWhile (fun t => t < now - 1)

/-- `SimpleRiskManager.is_allowed`.  `order_timestamps` is the manager's deque
and `now` the value of `time.time()` at the rate-limit check; the result pairs
the boolean verdict with the updated deque (pruning happens only when the
rate-limit check is reached; the accepted order's timestamp is appended on
success).  `daily_open_value` is the `defaultdict(float)` the portfolio
passes, hence a total function. -/
def is_allowed (cfg : RMConfig) (order_timestamps : List ℚ) (now : ℚ)
    (order : OrderEvent) (daily_open_value : String → ℚ) (history : List Bar)
    (symbol_list : List String) (holdings : RMHoldings) : Bool × List ℚ :=
  match history.getLast? with
  | none => (false, order_timestamps)
  | some lastBar =>
      let estimated_current_price := lastBar.close
      let open_value := daily_open_value order.strategy_name
      if ¬ max_order_quantity_check cfg order then (false, order_timestamps)
      else if ¬ max_notional_value_check cfg order estimated_current_price then
        (false, order_timestamps)
      else if ¬ daily_loss_limit_check cfg order holdings open_value then
        (false, order_timestamps)
      else if ¬ gross_exposure_check cfg order symbol_list holdings estimated_current_price then
        (false, order_timestamps)
      else if ¬ net_exposure_check cfg order symbol_list holdings estimated_current_price then
        (false, order_timestamps)
      else if ¬ participation_check cfg order history then (false, order_timestamps)
      else
        let pruned := rateLimitPrune order_timestamps now
        if cfg.RATE_LIMIT < (pruned.length : ℚ) then (false, pruned)
        else (true, pruned ++ [order.timestamp])

/-! ## Simulated execution handler
(`execution/simulated_execution_handler.py`) -/

/-- The body of `SimulatedExecutionHandler.on_market`'s while loop, with the
remaining iteration count (`orders_to_check − checked_orders`) as fuel.
`getBar` models `data_handler.get_latest_bars` (latest bar per ticker),
`slip` models `slippage_model.calculate_slippage(ticker, timestamp,
quantity)`.  Emitted fills are accumulated in order. -/
def ehProcess (getBar : String → Option Bar) (slip : String → ℚ → ℚ → ℚ)
    (mkt_close : Bool) :
    ℕ → List OrderEvent → List FillEvent → Except Err (List OrderEvent × List FillEvent)
  | 0, order_queue, fills => .ok (order_queue, fills)
  | _ + 1, [], fills => .ok ([], fills)
  | checked + 1, order :: rest, fills =>
      match getBar order.ticker with
      | none => .error .noData
      | some bar =>
          if bar.Index ≤ order.timestamp then
            -- `order.timestamp >= current_time`: push back to the front, stop.
            .ok (order :: rest, fills)
          else if order.order_type = .MOC ∧ mkt_close then
            let unit_cost := bar.close
            let fill_cost := order.quantity * unit_cost
            ehProcess getBar slip mkt_close checked rest
              (fills ++ [FillEvent.make bar.Index order.ticker "" order.quantity
                order.direction fill_cost unit_cost 0 none])
          else if order.order_type = .MKT then
            let s := slip order.ticker order.timestamp order.quantity
            let unit_cost :=
              if order.direction = .BUY then bar.openp * (1 + s)
              else bar.openp * (1 - s)
            let fill_cost := order.quantity * unit_cost
            ehProcess getBar slip mkt_close checked rest
              (fills ++ [FillEvent.make bar.Index order.ticker "" order.quantity
                order.direction fill_cost unit_cost s none])
          else
            -- MOC before the close: re-append to the tail and continue.
            ehProcess getBar slip mkt_close checked (rest ++ [order]) fills

/-- `SimulatedExecutionHandler.on_market`: process at most the initial queue
length many orders; returns the final queue and the emitted fills. -/
def ehOnMarket (getBar : String → Option Bar) (slip : String → ℚ → ℚ → ℚ)
    (mkt_close : Bool) (order_queue : List OrderEvent) :
    Except Err (List OrderEvent × List FillEvent) :=
  ehProcess getBar slip mkt_close order_queue.length order_queue []

/-! ## Naive portfolio (`portfolios/naive_portfolio.py`)

`current_holdings` / `margin_holdings` / `position_dict` /
`daily_open_value` become one state record.  Per-ticker dictionaries are
total functions (the portfolio's own dictionaries are keyed exactly by
`symbol_list`; accesses with a foreign ticker raise `KeyError` in Python and
are modelled by explicit membership checks).  The human-readable `order` and
`slippage` trace strings and the `historical_holdings` snapshot list do not
influence any numeric state and are omitted.  `current_holdings["margin"]`
(a display copy of the margin book refreshed only on fills — the refresh in
`end_of_day` is commented out in the source) is kept as `holdings_margin`;
`margin_holdings` is the authoritative margin book used by `end_of_day`'s
valuation. -/

/-- The mutable state of `NaivePortfolio`. -/
structure PortfolioState where
  position : String → ℚ
  value : String → ℚ
  cash : ℚ
  total : ℚ
  commissions : ℚ
  borrow_costs : ℚ
  margin_holdings : String → ℚ
  holdings_margin : String → ℚ
  timestamp : ℚ
  position_dict : String → ℚ
  daily_open_value : Option ℚ

/-- The constructor parameters of `NaivePortfolio` that the event handlers
read (`daily_borrow_rate` is `borrow_cost / get_annualization_factor
(interval)`, kept abstract here). -/
structure PortfolioParams where
  cash_buffer : ℚ
  maintenance_margin : ℚ
  daily_borrow_rate : ℚ
  risk_per_trade : ℚ
  symbol_list : List String
  rounding_number : String → ℕ
  strategy_name : String

/-- Pointwise update of a per-ticker dictionary. -/
def upd (f : String → ℚ) (t : String) (v : ℚ) : String → ℚ :=
  fun x => if x = t then v else f x

/-- `NaivePortfolio.__init__`: `cash = total = initial_capital`, zero
positions, values and margins, `position_dict` seeded with
`initial_position_size`. -/
def initialState (initial_capital initial_position_size start_date : ℚ) :
    PortfolioState :=
  { position := fun _ => 0
    value := fun _ => 0
    cash := initial_capital
    total := initial_capital
    commissions := 0
    borrow_costs := 0
    margin_holdings := fun _ => 0
    holdings_margin := fun _ => 0
    timestamp := start_date
    position_dict := fun _ => initial_position_size
    daily_open_value := none }

/-- The mark-to-market loop of `NaivePortfolio.on_market` over the (remaining)
symbol list: `value = position · close` of the ticker's latest bar, `total`
adjusted by the delta, `timestamp` set from the bar.  A missing bar raises
(`KeyError`/`IndexError`), modelled as `Err.noData`. -/
def markLoop (hist : String → List Bar) :
    List String → PortfolioState → Except Err PortfolioState
  | [], s => .ok s
  | ticker :: rest, s =>
      match (hist ticker).getLast? with
      | none => .error .noData
      | some bar =>
          markLoop hist rest
            { s with
              value := upd s.value ticker (s.position ticker * bar.close)
              total := s.total + s.position ticker * bar.close - s.value ticker
              timestamp := bar.Index }

/-- `NaivePortfolio.on_market` (the body of `on_interval`): reset the
per-interval fields, mark to market, record the per-strategy daily open value
on first sight, and raise `NegativeCashException` when `cash < 0`. -/
def on_market (hist : String → List Bar) (P : PortfolioParams)
    (s : PortfolioState) : Except Err PortfolioState :=
  let s0 := { s with commissions := 0, borrow_costs := 0 }
  match markLoop hist P.symbol_list s0 with
  | .error e => .error e
  | .ok s1 =>
      let s2 :=
        match s1.daily_open_value with
        | none => { s1 with daily_open_value := some s1.total }
        | some _ => s1
      if s2.cash < 0 then .error (.negativeCash s2.cash) else .ok s2

/-- `NaivePortfolio.on_fill`: update position, cash and commissions, revalue
the ticker at the fill's `unit_cost`, adjust `total`, then settle margin —
freeze `|value|·(1 + maintenance_margin)` for a net short, release held
margin for a net long/flat — and refresh the display copy of the margin
book.  A fill for a ticker outside `symbol_list` raises `KeyError`. -/
def on_fill (P : PortfolioParams) (s : PortfolioState) (event : FillEvent) :
    Except Err PortfolioState :=
  if event.ticker ∈ P.symbol_list then
    let initial_holding := s.value event.ticker
    let newPos := s.position event.ticker + event.direction.val * event.quantity
    let cash_delta := -1 * event.direction.val * event.fill_cost - event.commission
    let newValue := newPos * event.unit_cost
    let s1 :=
      { s with
        position := upd s.position event.ticker newPos
        cash := s.cash + cash_delta
        commissions := s.commissions + event.commission
        value := upd s.value event.ticker newValue
        total := s.total + newValue - initial_holding + cash_delta }
    let s2 :=
      if newPos < 0 then
        let margin_diff := s1.margin_holdings event.ticker + newValue * (1 + P.maintenance_margin)
        { s1 with
          cash := s1.cash + margin_diff
          margin_holdings := upd s1.margin_holdings event.ticker
            (s1.margin_holdings event.ticker - margin_diff) }
      else
        { s1 with
          cash := s1.cash + s1.margin_holdings event.ticker
          margin_holdings := upd s1.margin_holdings event.ticker 0 }
    .ok { s2 with holdings_margin := s2.margin_holdings }
  else .error .keyError

/-- The per-ticker loop of `NaivePortfolio.end_of_day`: mark to market and
accumulate into the freshly zeroed `total`; for a net short, adjust the
margin book to `|value|·(1 + maintenance_margin)` against cash, count the
(adjusted) margin into `total` and accrue the daily borrow cost; for a net
long/flat, release held margin to cash. -/
def eodLoop (hist : String → List Bar) (mm dbr : ℚ) :
    List String → PortfolioState → Except Err PortfolioState
  | [], s => .ok s
  | ticker :: rest, s =>
      match (hist ticker).getLast? with
      | none => .error .noData
      | some bar =>
          let v := s.position ticker * bar.close
          let s1 := { s with value := upd s.value ticker v, total := s.total + v }
          if s1.position ticker < (0 : ℚ) then
            let margin_diff := s1.margin_holdings ticker + v * (1 + mm)
            let s2 :=
              { s1 with
                cash := s1.cash + margin_diff
                margin_holdings := upd s1.margin_holdings ticker
                  (s1.margin_holdings ticker - margin_diff) }
            let s3 := { s2 with total := s2.total + s2.margin_holdings ticker }
            let daily_borrow_cost := |v| * dbr
            eodLoop hist mm dbr rest
              { s3 with
                cash := s3.cash - daily_borrow_cost
                borrow_costs := s3.borrow_costs + daily_borrow_cost }
          else
            eodLoop hist mm dbr rest
              { s1 with
                cash := s1.cash + s1.margin_holdings ticker
                margin_holdings := upd s1.margin_holdings ticker 0 }

/-- `NaivePortfolio.end_of_day`: recompute `total` from scratch over the
symbol list, then add cash and reset the per-strategy daily-open map. -/
def end_of_day (hist : String → List Bar) (P : PortfolioParams)
    (s : PortfolioState) : Except Err PortfolioState :=
  match eodLoop hist P.maintenance_margin P.daily_borrow_rate P.symbol_list
      { s with total := 0 } with
  | .error e => .error e
  | .ok s1 => .ok { s1 with total := s1.total + s1.cash, daily_open_value := none }

/-- The order-construction part of `NaivePortfolio.on_signal` (everything
after the `position_dict` update, which is the only state write of the
method): the signal branches, the affordability clamp — including the
`AttributeError` path — and the risk check.  `cur_quantity` and `target1`
are the method's local variables at that point. -/
def orderOutcome (hist : String → List Bar) (P : PortfolioParams)
    (allowed : OrderEvent → Bool) (cur_quantity target1 : ℚ)
    (s : PortfolioState) (ticker : String) (event : SignalEvent) :
    Except Err (Option OrderEvent) :=
    match (hist ticker).getLast? with
    | none => .ok none  -- `if not bars: ... return` (no data warning)
    | some lastBar =>
        let estimated_price := lastBar.close
        -- the three signal branches: (effective cash, final target, order)
        let branch : ℚ × ℚ × Option OrderEvent :=
          match event.signal_type with
          | .SHORT =>
              let eff := if 0 < cur_quantity then s.cash + cur_quantity * estimated_price else s.cash
              let tq := if 0 < cur_quantity then target1 + cur_quantity else target1
              (eff, tq, some ⟨.SELL, ticker, event.strategy, .MKT, tq, event.timestamp⟩)
          | .LONG =>
              let eff := if cur_quantity < 0 then s.cash + s.margin_holdings ticker else s.cash
              let tq := if cur_quantity < 0 then target1 + |cur_quantity| else target1
              (eff, tq, some ⟨.BUY, ticker, event.strategy, .MKT, tq, event.timestamp⟩)
          | _ =>  -- EXIT (and HOLD, which shares the `else` branch)
              if 0 < cur_quantity then
                (s.cash, target1, some ⟨.SELL, ticker, event.strategy, .MKT, cur_quantity, event.timestamp⟩)
              else if cur_quantity < 0 then
                (s.cash, target1, some ⟨.BUY, ticker, event.strategy, .MKT, |cur_quantity|, event.timestamp⟩)
              else (s.cash, target1, none)
        let eff_cash_available := branch.1
        let target_quantity := branch.2.1
        if 0 < estimated_price then
          match branch.2.2 with
          | none => .error .attrNone  -- `order.direction` with `order = None`
          | some order =>
              let max_affordable_qty :=
                if order.direction = .BUY then
                  eff_cash_available * P.cash_buffer / estimated_price
                else
                  eff_cash_available * P.cash_buffer / (1 + P.maintenance_margin * estimated_price)
              let order :=
                if max_affordable_qty < target_quantity then
                  { order with quantity := max_affordable_qty }
                else order
              if allowed order then .ok (some order) else .ok none
        else
          match branch.2.2 with
          | some order => if allowed order then .ok (some order) else .ok none
          | none => .ok none

/-- `NaivePortfolio.on_signal`.  `sizer` models
`position_sizer.get_position_size(risk_per_trade, total, rounding, ticker)`
and `allowed` models `risk_manager.is_allowed(order, ...)` (the risk manager
is a pluggable component; its own embedding is `is_allowed` above).  Returns
the updated state and the order pushed onto the event queue, if any; the
body after the `position_dict` update only reads state, so that single
update is attached to whichever outcome `orderOutcome` reaches.  The path
through the affordability clamp dereferences `order` while it may still be
`None` (the EXIT-with-flat-position case), which raises `AttributeError` —
modelled as `Err.attrNone`. -/
def on_signal (hist : String → List Bar) (P : PortfolioParams)
    (sizer : ℚ → ℚ → ℕ → String → Option ℚ) (allowed : OrderEvent → Bool)
    (s : PortfolioState) (event : SignalEvent) :
    Except Err (PortfolioState × Option OrderEvent) :=
  if event.ticker ∈ P.symbol_list then
    let ticker := event.ticker
    let cur_quantity := s.position ticker
    let target0 :=
      match sizer P.risk_per_trade s.total (P.rounding_number ticker) ticker with
      | none => s.position_dict ticker
      | some q => q
    let s := { s with position_dict := upd s.position_dict ticker target0 }
    let target1 := target0 * event.strength
    (orderOutcome hist P allowed cur_quantity target1 s ticker event).map
      (fun opt => (s, opt))
  else .error .keyError

/-- Projection of an `on_signal` result onto the direction and quantity of
the emitted order (used to state concrete evaluations decidably). -/
def emittedDirQty (r : Except Err (PortfolioState × Option OrderEvent)) :
    Option (DirectionType × ℚ) :=
  match r with
  | .ok (_, some o) => some (o.direction, o.quantity)
  | _ => none

/-! ## Runs of the portfolio -/

/-- One call into the portfolio.  Each operation carries the observation the
surrounding system supplies at that call (bar histories, the sizer's answer,
the risk manager's verdict). -/
inductive PortfolioOp where
  | interval (hist : String → List Bar)
  | signal (hist : String → List Bar) (sizer : ℚ → ℚ → ℕ → String → Option ℚ)
      (allowed : OrderEvent → Bool) (event : SignalEvent)
  | fill (event : FillEvent)
  | eod (hist : String → List Bar)

/-- Apply one portfolio operation. -/
def applyOp (P : PortfolioParams) (s : PortfolioState) :
    PortfolioOp → Except Err PortfolioState
  | .interval hist => on_market hist P s
  | .signal hist sizer allowed event =>
      (on_signal hist P sizer allowed s event).map Prod.fst
  | .fill event => on_fill P s event
  | .eod hist => end_of_day hist P s

/-- Run a sequence of portfolio operations from a state; any raised exception
aborts the run. -/
def runOps (P : PortfolioParams) (s : PortfolioState) :
    List PortfolioOp → Except Err PortfolioState
  | [] => .ok s
  | op :: rest =>
      match applyOp P s op with
      | .error e => .error e
      | .ok s1 => runOps P s1 rest

/-- Sum of a per-ticker dictionary over the symbol list. -/
def sumOver (l : List String) (f : String → ℚ) : ℚ :=
  (l.map f).sum

/-- The holdings invariant of the claim:
`total = cash + Σ value(ticker) + Σ margin(ticker)`. -/
def holdingsInvariant (P : PortfolioParams) (s : PortfolioState) : Prop :=
  s.total = s.cash + sumOver P.symbol_list s.value + sumOver P.symbol_list s.margin_holdings

/-! ## Driver loop (`cli.py`, `run`, lines 191–209)

The driver state is the portfolio plus the execution handler's queue and the
`mkt_close` flag.  The bar manager's fan-out to the sizer/strategy/slippage
subscribers touches none of this state and is not modelled; its notification
of the portfolio is the `on_market` call.  Crucially, the source loop
contains no `try`/`except`: every exception propagates out of `run`, and the
`exception_contd` CLI flag is accepted but never read. -/

/-- The events of the driver's queue (`event.type` dispatch). -/
inductive Event where
  | market (timestamp : ℚ) (is_eod : Bool)
  | signal (event : SignalEvent)
  | order (event : OrderEvent)
  | fill (event : FillEvent)

/-- Driver-owned state: portfolio, execution-handler order queue, end-of-day
flag. -/
structure DriverState where
  portfolio : PortfolioState
  order_queue : List OrderEvent
  mkt_close : Bool

/-- The per-run context of `cli.run`: portfolio parameters, data access, the
pluggable sizer / risk-manager / slippage hooks and the benchmark ticker. -/
structure DriverCtx where
  P : PortfolioParams
  hist : String → List Bar
  getBar : String → Option Bar
  slip : String → ℚ → ℚ → ℚ
  sizer : ℚ → ℚ → ℕ → String → Option ℚ
  allowed : OrderEvent → Bool
  benchmark : String

/-- Dispatch of one event, translating the `if event.type == ...` chain of
the driver loop.  Returns the new driver state and the events the handlers
pushed onto the queue during the dispatch.  The `exception_contd` flag is a
parameter of `run` in scope here; as in the source, it is never consulted —
exceptions simply propagate. -/
def cliHandleEvent (exception_contd : ℕ) (ctx : DriverCtx) (ds : DriverState) :
    Event → Except Err (DriverState × List Event)
  | .market _ is_eod =>
      match on_market ctx.hist ctx.P ds.portfolio with
      | .error e => .error e
      | .ok p1 =>
          match ehOnMarket ctx.getBar ctx.slip is_eod ds.order_queue with
          | .error e => .error e
          | .ok (q1, fills) =>
              .ok ({ portfolio := p1, order_queue := q1, mkt_close := is_eod },
                fills.map Event.fill)
  | .signal ev =>
      if ev.ticker ≠ ctx.benchmark then
        match on_signal ctx.hist ctx.P ctx.sizer ctx.allowed ds.portfolio ev with
        | .error e => .error e
        | .ok (p1, none) => .ok ({ ds with portfolio := p1 }, [])
        | .ok (p1, some o) => .ok ({ ds with portfolio := p1 }, [Event.order o])
      else .ok (ds, [])
  | .order o => .ok ({ ds with order_queue := ds.order_queue ++ [o] }, [])
  | .fill f =>
      match on_fill ctx.P ds.portfolio f with
      | .error e => .error e
      | .ok p1 => .ok ({ ds with portfolio := p1 }, [])

/-- The inner `while not event_queue.empty()` drain of the driver loop, with
fuel for the unbounded iteration (the source loop terminates because fills
and orders generate no further market events). -/
def cliEventLoop (exception_contd : ℕ) (ctx : DriverCtx) :
    ℕ → List Event → DriverState → Except Err DriverState
  | 0, _, ds => .ok ds
  | _ + 1, [], ds => .ok ds
  | fuel + 1, e :: rest, ds =>
      match cliHandleEvent exception_contd ctx ds e with
      | .error err => .error err
      | .ok (ds1, pushed) => cliEventLoop exception_contd ctx fuel (rest ++ pushed) ds1

/-- One outer iteration of the driver loop after `update_bars`: drain the
event queue, then run `end_of_day` when the `mkt_close` flag was set. -/
def cliRunOnce (exception_contd : ℕ) (ctx : DriverCtx) (fuel : ℕ)
    (events : List Event) (ds : DriverState) : Except Err DriverState :=
  match cliEventLoop exception_contd ctx fuel events ds with
  | .error e => .error e
  | .ok ds1 =>
      if ds1.mkt_close then
        match end_of_day ctx.hist ctx.P ds1.portfolio with
        | .error e => .error e
        | .ok p1 => .ok { portfolio := p1, order_queue := ds1.order_queue, mkt_close := false }
      else .ok ds1

/-! ## Theorems -/

/-- C2: the claim's commission cap `0.005·fill_cost` does not match the
source, which computes `0.5/100 · quantity · fill_cost`.  At `quantity = 2`,
`fill_cost = 100` a default-commission fill carries commission `1`, while the
claimed formula gives `1/2`. -/
theorem C2_counterexample :
    (FillEvent.make 0 "A" "" 2 .BUY 100 50 0 none).commission = 1 ∧
    ib_commission_claimed 2 100 = 1/2 ∧ (1 : ℚ) ≠ 1/2 := by
  refine ⟨?_, ?_, by norm_num⟩ <;>
    norm_num [FillEvent.make, calculate_ib_commission, ib_commission_claimed,
      min_def, max_def]

/-- C2 (amended): a `Fill` constructed without an explicit commission, with
quantity `q ≥ 0` and notional `fill_cost`, has commission
`min(max(1.3, k·q), 0.005·q·fill_cost)` — the cap is proportional to the
quantity times the notional — with `k = 0.013` for `q ≤ 500` and `k = 0.008`
otherwise. -/
theorem C2_commission_amended (ts : ℚ) (tk ex : String) (q : ℚ)
    (d : DirectionType) (fc uc sl : ℚ) (hq : 0 ≤ q) :
    (FillEvent.make ts tk ex q d fc uc sl none).commission =
      min (max (13/10) ((if q ≤ 500 then (13/1000 : ℚ) else 1/125) * q))
        (1/200 * q * fc) := by
  unfold FillEvent.make calculate_ib_commission
  by_cases h : q ≤ 500 <;> simp [h]

/-- C2 witness: the amended statement evaluated at `q = 2`, `fill_cost =
100`. -/
theorem C2_commission_amended_witness :
    (0 : ℚ) ≤ 2 ∧
      (FillEvent.make 0 "A" "" 2 .BUY 100 50 0 none).commission =
        min (max (13/10) ((if (2 : ℚ) ≤ 500 then (13/1000 : ℚ) else 1/125) * 2))
          (1/200 * 2 * 100) :=
  ⟨by norm_num, C2_commission_amended 0 "A" "" 2 .BUY 100 50 0 (by norm_num)⟩

/-- C8: the decimal-rounding branch uses Python `int()` (truncation toward
zero), not `floor`; they differ for a negative raw size.  With ATR `1`,
multiplier `1`, `risk = 1`, `total = −3/20`, `rounding = 1` the source
returns `−1/10` while the claimed `floor(raw·10)/10` is `−1/5`. -/
theorem C8_counterexample :
    get_position_size ⟨14, 1⟩ [1] 1 (-3/20) 1 = some (-1/10) ∧
      ((-1/10 : ℚ) ≠ ((⌊((-3/20 : ℚ) * 10)⌋ : ℤ) : ℚ) / 10) := by
  constructor
  · have h : ⌈(-(3/2) : ℚ)⌉ = -1 := by rw [Int.ceil_neg]; norm_num
    norm_num [get_position_size, pyIntTrunc, h]
  · have h : ⌊(-(3/2) : ℚ)⌋ = -2 := by norm_num
    norm_num [show ((-3/20 : ℚ) * 10) = -(3/2) by norm_num, h]

/-- C8 (amended): `get_position_size` returns `None` when no ATR is stored or
the last stored ATR is `0`; otherwise with
`raw = risk_per_trade·total/(ATR·atr_multiplier)` it returns `floor(raw)` for
`rounding = 0`, and for `rounding > 0` it returns
`trunc(raw·10^rounding)/10^rounding` with truncation toward zero — which
agrees with the claimed floor form whenever `raw ≥ 0`. -/
theorem C8_position_size_amended (cfg : ATRConfig) (stored : List ℚ)
    (risk total : ℚ) (rounding : ℕ) :
    (stored.getLast? = none → get_position_size cfg stored risk total rounding = none) ∧
    (∀ atr, stored.getLast? = some atr → atr = 0 →
      get_position_size cfg stored risk total rounding = none) ∧
    (∀ atr, stored.getLast? = some atr → atr ≠ 0 →
      (rounding = 0 →
        get_position_size cfg stored risk total rounding =
          some ((⌊risk * total / (atr * cfg.atr_multiplier)⌋ : ℤ) : ℚ)) ∧
      (0 < rounding →
        get_position_size cfg stored risk total rounding =
          some (((pyIntTrunc (risk * total / (atr * cfg.atr_multiplier) * 10 ^ rounding) : ℤ) : ℚ) /
            10 ^ rounding)) ∧
      (0 < rounding → 0 ≤ risk * total / (atr * cfg.atr_multiplier) →
        get_position_size cfg stored risk total rounding =
          some (((⌊risk * total / (atr * cfg.atr_multiplier) * 10 ^ rounding⌋ : ℤ) : ℚ) /
            10 ^ rounding))) := by
  refine ⟨?_, ?_, ?_⟩
  · intro h; simp [get_position_size, h]
  · intro atr h h0; simp [get_position_size, h, h0]
  · intro atr h h0
    refine ⟨?_, ?_, ?_⟩
    · intro hr; simp [get_position_size, h, h0, hr]
    · intro hr
      simp only [get_position_size, h, h0, ne_eq, not_false_eq_true, if_true,
        Nat.pos_iff_ne_zero.mp hr, if_false]
    · intro hr hraw
      have htr : pyIntTrunc (risk * total / (atr * cfg.atr_multiplier) * 10 ^ rounding) =
          ⌊risk * total / (atr * cfg.atr_multiplier) * 10 ^ rounding⌋ := by
        unfold pyIntTrunc
        have : (0 : ℚ) ≤ risk * total / (atr * cfg.atr_multiplier) * 10 ^ rounding :=
          mul_nonneg hraw (by positivity)
        simp [this]
      simp only [get_position_size, h, h0, ne_eq, not_false_eq_true, if_true,
        Nat.pos_iff_ne_zero.mp hr, if_false, htr]

/-- C8 witness: with ATR `2`, multiplier `2`, `risk = 1/100`,
`total = 100000`, `rounding = 0`, the size is `floor(250) = 250`. -/
theorem C8_position_size_amended_witness :
    get_position_size ⟨14, 2⟩ [2] (1/100) 100000 0 =
      some ((⌊(1/100 : ℚ) * 100000 / (2 * 2)⌋ : ℤ) : ℚ) :=
  ((C8_position_size_amended ⟨14, 2⟩ [2] (1/100) 100000 0).2.2 2 rfl
    (by norm_num)).1 rfl

/-- C7: the seed ATR is not the mean of True Range over `atr_window` bars:
the `nanmean` runs over `atr_window + 1` rows, the first row contributing
`high − low` (its shifted-close columns are `NaN`).  With `atr_window = 1`
and bars `(h=1, l=0, c=0)`, `(h=3, l=1, c=2)` the source seeds `ATR = 2`
(mean of `[1, 3]`) while the claimed mean over `1` bar is `3`. -/
theorem C7_counterexample :
    calcAtr 1 [] [⟨0, 0, 1, 0, 0, 0⟩, ⟨0, 0, 3, 1, 2, 0⟩] = some 2 ∧
    atr_seed_claimed 1 [⟨0, 0, 1, 0, 0, 0⟩, ⟨0, 0, 3, 1, 2, 0⟩] = some 3 ∧
    (2 : ℚ) ≠ 3 := by
  refine ⟨?_, ?_, by norm_num⟩ <;>
    norm_num [calcAtr, atr_seed_claimed, trList, pySliceFrom, max_def]

/-- C7 (amended): the first stored ATR equals the arithmetic mean of the
`atr_window + 1` true-range values of the last `atr_window + 1` bars, the
first of which degenerates to `high − low`; each subsequent value follows
Wilder's rule `(1/n)·TR + (1 − 1/n)·ATR_prev` on the last two bars; and the
concrete step with `n = 2`, previous ATR `2`, new TR `4` yields `3`. -/
theorem C7_atr_amended :
    (∀ (n : ℕ) (history : List Bar) (b : Bar) (bs : List Bar),
      pySliceFrom (-(n + 1 : ℤ)) history = b :: bs →
      (b :: bs).length = n + 1 →
      calcAtr n [] history =
        some (((b.high - b.low) +
          ((bs.zip (b :: bs)).map (fun p => max (p.1.high - p.1.low)
            (max |p.1.high - p.2.close| |p.1.low - p.2.close|))).sum) / (n + 1 : ℚ))) ∧
    (∀ (n : ℕ) (stored : List ℚ) (prevAtr : ℚ) (l : List Bar) (prev cur : Bar),
      stored.getLast? = some prevAtr →
      calcAtr n stored (l ++ [prev, cur]) =
        some (1 / (n : ℚ) * (max (cur.high - cur.low)
          (max |cur.high - prev.close| |cur.low - prev.close|)) +
          (1 - 1 / (n : ℚ)) * prevAtr)) ∧
    calcAtr 2 [2] [⟨0, 0, 10, 10, 10, 0⟩, ⟨1, 0, 14, 10, 12, 0⟩] = some 3 := by
  refine ⟨?_, ?_, ?_⟩
  · intro n history b bs hslice hlen
    unfold calcAtr
    simp only [List.getLast?_nil, hslice, hlen, lt_irrefl, if_false, trList]
    norm_num
  · intro n stored prevAtr l prev cur hlast
    unfold calcAtr
    have hrev : (l ++ [prev, cur]).reverse = cur :: prev :: l.reverse := by
      simp
    rw [hlast, hrev]
  · norm_num [calcAtr, max_def]

/-- C7 witness: the amended seed rule at `atr_window = 1` on the two bars of
the counterexample, and the Wilder rule at `n = 2`, previous ATR `2`. -/
theorem C7_atr_amended_witness :
    calcAtr 1 [] [⟨0, 0, 1, 0, 0, 0⟩, ⟨0, 0, 3, 1, 2, 0⟩] =
      some ((((1 : ℚ) - 0) +
        ((([⟨0, 0, 3, 1, 2, 0⟩] : List Bar).zip
            ([⟨0, 0, 1, 0, 0, 0⟩, ⟨0, 0, 3, 1, 2, 0⟩] : List Bar)).map
          (fun p => max (p.1.high - p.1.low)
            (max |p.1.high - p.2.close| |p.1.low - p.2.close|))).sum) / (1 + 1 : ℚ)) ∧
    calcAtr 2 [2] ([] ++ [⟨0, 0, 10, 10, 10, 0⟩, ⟨1, 0, 14, 10, 12, 0⟩]) =
      some (1 / (2 : ℚ) * (max ((14 : ℚ) - 10) (max |(14 : ℚ) - 10| |(10 : ℚ) - 10|)) +
        (1 - 1 / (2 : ℚ)) * 2) :=
  ⟨by
    have h := C7_atr_amended.1 1 [⟨0, 0, 1, 0, 0, 0⟩, ⟨0, 0, 3, 1, 2, 0⟩]
      ⟨0, 0, 1, 0, 0, 0⟩ [⟨0, 0, 3, 1, 2, 0⟩] (by norm_num [pySliceFrom]) (by norm_num)
    simpa using h,
   C7_atr_amended.2.1 2 [2] 2 [] ⟨0, 0, 10, 10, 10, 0⟩ ⟨1, 0, 14, 10, 12, 0⟩ rfl⟩

/-- C9: the crossover guards are the reverse of the claim: the source emits
LONG (on short SMA above long SMA) only when the position state is `≤ 0`,
and SHORT only when it is `≥ 0`.  With `short = 1`, `long = 2`, state `−1`
and closes `1, 3, 99` (newest dropped), the short SMA `3` exceeds the long
SMA `2` and a LONG signal is emitted from state `−1`, refuting "LONG only if
state ≥ 0". -/
theorem C9_counterexample :
    generate_signals 1 2 (-1) [⟨0, 0, 0, 0, 1, 0⟩, ⟨1, 0, 0, 0, 3, 0⟩, ⟨2, 0, 0, 0, 99, 0⟩] =
      (some .LONG, 1) ∧ ¬((0 : ℤ) ≤ -1) := by
  refine ⟨?_, by norm_num⟩
  norm_num [generate_signals, pySliceFrom]

/-- C9 (amended): over the window of `long + 1` bars excluding the most
recent bar, a LONG signal is emitted iff the short SMA exceeds the long SMA
and the per-ticker state is ≤ 0 (the state becoming `+1`), and a SHORT
signal is emitted iff the short SMA is below the long SMA and the state is
≥ 0 (the state becoming `−1`); the guards of the claim are swapped. -/
theorem C9_crossover_amended (short_window long_window : ℕ) (cur_pos : ℤ)
    (history : List Bar) (hlen : long_window + 1 ≤ history.length) :
    ((generate_signals short_window long_window cur_pos history = (some .LONG, 1)) ↔
      (((((pySliceFrom (-(long_window + 1 : ℤ)) history).dropLast.map Bar.close).sum) / (long_window : ℚ) <
        ((((pySliceFrom (-(long_window + 1 : ℤ)) history).dropLast.reverse.take short_window).map Bar.close).sum) / (short_window : ℚ)) ∧
        cur_pos ≤ 0)) ∧
    ((generate_signals short_window long_window cur_pos history = (some .SHORT, -1)) ↔
      ((((((pySliceFrom (-(long_window + 1 : ℤ)) history).dropLast.reverse.take short_window).map Bar.close).sum) / (short_window : ℚ) <
        (((pySliceFrom (-(long_window + 1 : ℤ)) history).dropLast.map Bar.close).sum) / (long_window : ℚ)) ∧
        0 ≤ cur_pos)) := by
  have hne : ¬ history.isEmpty := by
    cases history with
    | nil => simp at hlen
    | cons a l => simp
  have hlenslice : (pySliceFrom (-(long_window + 1 : ℤ)) history).length = long_window + 1 := by
    unfold pySliceFrom
    rw [if_neg (by omega)]
    simp only [List.length_drop]
    omega
  set sAvg := (((pySliceFrom (-(long_window + 1 : ℤ)) history).dropLast.reverse.take short_window).map Bar.close).sum / (short_window : ℚ) with hs
  set lAvg := ((pySliceFrom (-(long_window + 1 : ℤ)) history).dropLast.map Bar.close).sum / (long_window : ℚ) with hl
  have hunf : generate_signals short_window long_window cur_pos history =
      (if sAvg < lAvg ∧ 0 ≤ cur_pos then (some .SHORT, -1)
       else if lAvg < sAvg ∧ cur_pos ≤ 0 then (some .LONG, 1)
       else (none, cur_pos)) := by
    rw [generate_signals, if_neg hne]
    simp only [hlenslice, lt_irrefl, if_false, hs, hl]
  rw [hunf]
  split_ifs with h1 h2
  · refine ⟨⟨fun h => by simp at h, fun h => absurd h.1 (lt_asymm h1.1)⟩,
      ⟨fun _ => h1, fun _ => rfl⟩⟩
  · refine ⟨⟨fun _ => h2, fun _ => rfl⟩,
      ⟨fun h => by simp at h, fun h => absurd h.1 (lt_asymm h2.1)⟩⟩
  · refine ⟨⟨fun h => by simp at h, fun h => absurd h h2⟩,
      ⟨fun h => by simp at h, fun h => absurd h h1⟩⟩

/-- C9 witness: the amended characterization at `short = 1`, `long = 2`,
state `0`, closes `1, 3, 99`: the short SMA `3` exceeds the long SMA `2`, so
the LONG branch fires. -/
theorem C9_crossover_amended_witness :
    generate_signals 1 2 0 [⟨0, 0, 0, 0, 1, 0⟩, ⟨1, 0, 0, 0, 3, 0⟩, ⟨2, 0, 0, 0, 99, 0⟩] =
      (some .LONG, 1) :=
  ((C9_crossover_amended 1 2 0
    [⟨0, 0, 0, 0, 1, 0⟩, ⟨1, 0, 0, 0, 3, 0⟩, ⟨2, 0, 0, 0, 99, 0⟩] (by norm_num)).1).mpr
    (by norm_num [pySliceFrom])

/-- C3: setting every limit to −1 does not make `is_allowed` permissive.
With all limits −1, one bar of history and a plain BUY order, the
participation check runs (`len(history) ≥ −1` always holds), computes an
empty slice (`history[1:]`), hence average volume `0`, and vetoes; the order
is rejected, refuting "is_allowed returns true for every order". -/
theorem C3_counterexample :
    (is_allowed ⟨-1, -1, -1, -1, -1, -1, -1, -1⟩ [] 0
      ⟨.BUY, "A", "s", .MKT, 10, 0⟩ (fun _ => 0) [⟨0, 1, 1, 1, 1, 5⟩] ["A"]
      ⟨100, fun _ => 0, fun _ => 0⟩).1 = false := by
  norm_num [is_allowed, max_order_quantity_check, max_notional_value_check,
    daily_loss_limit_check, gross_exposure_check, net_exposure_check,
    participation_check, pySliceFrom]

/-- C3 (amended): −1 disables the max-order-quantity, max-notional,
max-gross-exposure and max-net-exposure checks (they then pass for every
order and holdings state), but it does not disable the daily-loss,
participation and rate-limit checks; in particular `RATE_LIMIT = −1` — as in
the all-limits-−1 configuration — makes `is_allowed` return `false` for
every order, history and holdings state. -/
theorem C3_neg_limits_amended :
    (∀ cfg o, cfg.MAX_ORDER_QTY = -1 → max_order_quantity_check cfg o = true) ∧
    (∀ cfg o p, cfg.MAX_NOTIONAL_VAL = -1 → max_notional_value_check cfg o p = true) ∧
    (∀ cfg o syms h p, cfg.MAX_GROSS_EXPOSURE = -1 →
      gross_exposure_check cfg o syms h p = true) ∧
    (∀ cfg o syms h p, cfg.MAX_NET_EXPOSURE = -1 →
      net_exposure_check cfg o syms h p = true) ∧
    (∀ cfg ts now o dov hist syms h, cfg.RATE_LIMIT = -1 →
      (is_allowed cfg ts now o dov hist syms h).1 = false) := by
  refine ⟨?_, ?_, ?_, ?_, ?_⟩
  · intro cfg o hc; simp [max_order_quantity_check, hc]
  · intro cfg o p hc; simp [max_notional_value_check, hc]
  · intro cfg o syms h p hc; simp [gross_exposure_check, hc]
  · intro cfg o syms h p hc; simp [net_exposure_check, hc]
  · intro cfg ts now o dov hist syms h hc
    unfold is_allowed
    cases hlast : hist.getLast? with
    | none => rfl
    | some lastBar =>
        have hrate : cfg.RATE_LIMIT < ((rateLimitPrune ts now).length : ℚ) := by
          rw [hc]
          have hnn : (0 : ℚ) ≤ ((rateLimitPrune ts now).length : ℚ) := by positivity
          linarith
        simp only [hrate, if_true]
        split_ifs <;> rfl

/-- C3 witness: the four disabled checks at a concrete −1 configuration and
order, and the unconditional rate-limit veto at the all-−1 configuration. -/
theorem C3_neg_limits_amended_witness :
    max_order_quantity_check ⟨-1, -1, -1, -1, -1, -1, -1, -1⟩
      ⟨.BUY, "A", "s", .MKT, 10, 0⟩ = true ∧
    max_notional_value_check ⟨-1, -1, -1, -1, -1, -1, -1, -1⟩
      ⟨.BUY, "A", "s", .MKT, 10, 0⟩ 7 = true ∧
    gross_exposure_check ⟨-1, -1, -1, -1, -1, -1, -1, -1⟩
      ⟨.BUY, "A", "s", .MKT, 10, 0⟩ ["A"] ⟨100, fun _ => 0, fun _ => 0⟩ 7 = true ∧
    net_exposure_check ⟨-1, -1, -1, -1, -1, -1, -1, -1⟩
      ⟨.BUY, "A", "s", .MKT, 10, 0⟩ ["A"] ⟨100, fun _ => 0, fun _ => 0⟩ 7 = true ∧
    (is_allowed ⟨-1, -1, -1, -1, -1, -1, -1, -1⟩ [] 0
      ⟨.SELL, "A", "s", .MKT, 3, 0⟩ (fun _ => 0) [⟨0, 1, 1, 1, 1, 5⟩, ⟨1, 1, 1, 1, 1, 5⟩]
      ["A"] ⟨100, fun _ => 0, fun _ => 0⟩).1 = false :=
  ⟨C3_neg_limits_amended.1 _ _ rfl,
   C3_neg_limits_amended.2.1 _ _ 7 rfl,
   C3_neg_limits_amended.2.2.1 _ _ ["A"] ⟨100, fun _ => 0, fun _ => 0⟩ 7 rfl,
   C3_neg_limits_amended.2.2.2.1 _ _ ["A"] ⟨100, fun _ => 0, fun _ => 0⟩ 7 rfl,
   C3_neg_limits_amended.2.2.2.2 _ [] 0 _ (fun _ => 0) _ ["A"]
     ⟨100, fun _ => 0, fun _ => 0⟩ rfl⟩

/-- C10: an EXIT signal on a ticker with a flat position and a positive
latest close leaves `order = None`, and the affordability-clamp block then
dereferences `order.direction`, raising `AttributeError`; `on_signal` does
not return normally and emits no order. -/
theorem C10_exit_flat_attr_error (hist : String → List Bar)
    (P : PortfolioParams) (sizer : ℚ → ℚ → ℕ → String → Option ℚ)
    (allowed : OrderEvent → Bool) (s : PortfolioState) (event : SignalEvent)
    (b : Bar) (hmem : event.ticker ∈ P.symbol_list)
    (hexit : event.signal_type = .EXIT)
    (hflat : s.position event.ticker = 0)
    (hbar : (hist event.ticker).getLast? = some b)
    (hpos : 0 < b.close) :
    on_signal hist P sizer allowed s event = .error .attrNone := by
  unfold on_signal
  rw [if_pos hmem]
  simp only [orderOutcome, hbar, hexit, hflat, lt_self_iff_false, if_false,
    hpos, if_true, Except.map]

/-- C10 witness: a concrete EXIT signal on ticker `"A"` with flat position
and latest close `1` raises the modelled `AttributeError`. -/
theorem C10_exit_flat_attr_error_witness :
    on_signal (fun _ => [⟨0, 1, 1, 1, 1, 0⟩])
      ⟨1, 1/2, 0, 1/100, ["A"], fun _ => 0, "s"⟩ (fun _ _ _ _ => none)
      (fun _ => true) (initialState 1000 1 0)
      ⟨0, "A", "s", .EXIT, 1⟩ = .error .attrNone :=
  C10_exit_flat_attr_error (fun _ => [⟨0, 1, 1, 1, 1, 0⟩])
    ⟨1, 1/2, 0, 1/100, ["A"], fun _ => 0, "s"⟩ (fun _ _ _ _ => none)
    (fun _ => true) (initialState 1000 1 0) ⟨0, "A", "s", .EXIT, 1⟩
    ⟨0, 1, 1, 1, 1, 0⟩ (by simp) rfl rfl rfl (by norm_num)

/-- Helper for C6: every fill produced by the execution-handler loop either
was already accumulated or stems from an order of the processed queue with
matching identity fields and a strictly earlier order timestamp. -/
theorem ehProcess_fills_source (getBar : String → Option Bar)
    (slip : String → ℚ → ℚ → ℚ) (mc : Bool) :
    ∀ (k : ℕ) (q : List OrderEvent) (acc : List FillEvent)
      (res : List OrderEvent × List FillEvent),
      ehProcess getBar slip mc k q acc = .ok res →
      ∀ f ∈ res.2, f ∈ acc ∨ ∃ o ∈ q, o.ticker = f.ticker ∧
        o.direction = f.direction ∧ o.quantity = f.quantity ∧
        o.timestamp < f.timestamp := by
  intro k
  induction k with
  | zero =>
      intro q acc res h f hf
      simp only [ehProcess] at h
      cases h
      exact Or.inl hf
  | succ n ih =>
      intro q acc res h f hf
      match q with
      | [] =>
          simp only [ehProcess] at h
          cases h
          exact Or.inl hf
      | o :: rest =>
          simp only [ehProcess] at h
          cases hb : getBar o.ticker with
          | none => rw [hb] at h; cases h
          | some bar =>
              simp only [hb] at h
              by_cases ht : bar.Index ≤ o.timestamp
              · rw [if_pos ht] at h
                cases h
                exact Or.inl hf
              · rw [if_neg ht] at h
                have hts : o.timestamp < bar.Index := not_le.mp ht
                by_cases hmoc : o.order_type = .MOC ∧ mc = true
                · rw [if_pos hmoc] at h
                  rcases ih rest _ res h f hf with hacc | ⟨o1, ho1, hp⟩
                  · rcases List.mem_append.mp hacc with hacc | hfill
                    · exact Or.inl hacc
                    · refine Or.inr ⟨o, List.mem_cons_self o rest, ?_⟩
                      have hfe : f = FillEvent.make bar.Index o.ticker "" o.quantity
                          o.direction (o.quantity * bar.close) bar.close 0 none :=
                        List.mem_singleton.mp hfill
                      subst hfe
                      exact ⟨rfl, rfl, rfl, hts⟩
                  · exact Or.inr ⟨o1, List.mem_cons_of_mem o ho1, hp⟩
                · rw [if_neg hmoc] at h
                  by_cases hmkt : o.order_type = .MKT
                  · rw [if_pos hmkt] at h
                    rcases ih rest _ res h f hf with hacc | ⟨o1, ho1, hp⟩
                    · rcases List.mem_append.mp hacc with hacc | hfill
                      · exact Or.inl hacc
                      · refine Or.inr ⟨o, List.mem_cons_self o rest, ?_⟩
                        have hfe := List.mem_singleton.mp hfill
                        subst hfe
                        exact ⟨rfl, rfl, rfl, hts⟩
                    · exact Or.inr ⟨o1, List.mem_cons_of_mem o ho1, hp⟩
                  · rw [if_neg hmkt] at h
                    rcases ih (rest ++ [o]) _ res h f hf with hacc | ⟨o1, ho1, hp⟩
                    · exact Or.inl hacc
                    · rcases List.mem_append.mp ho1 with hr | hsing
                      · exact Or.inr ⟨o1, List.mem_cons_of_mem o hr, hp⟩
                      · have : o1 = o := List.mem_singleton.mp hsing
                        subst this
                        exact Or.inr ⟨o1, List.mem_cons_self o1 rest, hp⟩

/-- C6: (i) when the latest bar's timestamp for the head order is less than
or equal to the order's timestamp, the order is put back at the front and
processing stops with the queue and fills unchanged; (ii) consequently,
every fill emitted by `on_market` stems from an order of the incoming queue
with the same ticker, direction and quantity and a timestamp strictly
earlier than the fill's. -/
theorem C6_no_lookahead :
    (∀ (getBar : String → Option Bar) (slip : String → ℚ → ℚ → ℚ) (mc : Bool)
      (o : OrderEvent) (rest : List OrderEvent) (bar : Bar) (k : ℕ)
      (acc : List FillEvent), getBar o.ticker = some bar →
      bar.Index ≤ o.timestamp →
      ehProcess getBar slip mc k (o :: rest) acc = .ok (o :: rest, acc)) ∧
    (∀ (getBar : String → Option Bar) (slip : String → ℚ → ℚ → ℚ) (mc : Bool)
      (q : List OrderEvent) (res : List OrderEvent × List FillEvent),
      ehOnMarket getBar slip mc q = .ok res →
      ∀ f ∈ res.2, ∃ o ∈ q, o.ticker = f.ticker ∧ o.direction = f.direction ∧
        o.quantity = f.quantity ∧ o.timestamp < f.timestamp) := by
  constructor
  · intro getBar slip mc o rest bar k acc hb ht
    cases k with
    | zero => rfl
    | succ n => simp only [ehProcess, hb, if_pos ht]
  · intro getBar slip mc q res h f hf
    rcases ehProcess_fills_source getBar slip mc q.length q [] res h f hf with
      habs | hsrc
    · cases habs
    · exact hsrc

/-- C6 witness: a future-dated head order (bar time `0` ≤ order time `1`) is
put back untouched, and the single fill of a processed MKT order (bar time
`5`, order time `1`) carries the order's identity and a strictly later
timestamp. -/
theorem C6_no_lookahead_witness :
    ehProcess (fun _ => some ⟨0, 1, 1, 1, 1, 0⟩) (fun _ _ _ => 0) false 1
      [⟨.BUY, "A", "s", .MKT, 2, 1⟩] [] =
      .ok ([⟨.BUY, "A", "s", .MKT, 2, 1⟩], []) ∧
    (∃ o ∈ [(⟨.BUY, "A", "s", .MKT, 2, 1⟩ : OrderEvent)],
      o.ticker = (⟨5, "A", "", 2, .BUY, 2, 1, 0, 1/50⟩ : FillEvent).ticker ∧
      o.direction = (⟨5, "A", "", 2, .BUY, 2, 1, 0, 1/50⟩ : FillEvent).direction ∧
      o.quantity = (⟨5, "A", "", 2, .BUY, 2, 1, 0, 1/50⟩ : FillEvent).quantity ∧
      o.timestamp < (⟨5, "A", "", 2, .BUY, 2, 1, 0, 1/50⟩ : FillEvent).timestamp) :=
  ⟨C6_no_lookahead.1 (fun _ => some ⟨0, 1, 1, 1, 1, 0⟩) (fun _ _ _ => 0) false
      ⟨.BUY, "A", "s", .MKT, 2, 1⟩ [] ⟨0, 1, 1, 1, 1, 0⟩ 1 [] rfl (by norm_num),
   C6_no_lookahead.2 (fun _ => some ⟨5, 1, 1, 1, 1, 0⟩) (fun _ _ _ => 0) false
      [⟨.BUY, "A", "s", .MKT, 2, 1⟩] ([], [⟨5, "A", "", 2, .BUY, 2, 1, 0, 1/50⟩])
      (by norm_num [ehOnMarket, ehProcess, FillEvent.make, calculate_ib_commission,
        min_def, max_def])
      ⟨5, "A", "", 2, .BUY, 2, 1, 0, 1/50⟩ (List.mem_singleton.mpr rfl)⟩

/-- C4: a LONG signal on a ticker with a strictly positive position does not
net the order against the position.  With current position `10`, sizer
target `4`, strength `1`, price `1` and ample cash, the claim predicts a
SELL of `6` (reduce to target); the source emits a BUY of `4`. -/
theorem C4_counterexample :
    emittedDirQty (on_signal (fun _ => [⟨0, 0, 0, 0, 1, 0⟩])
      ⟨1, 1/2, 0, 1/100, ["A"], fun _ => 0, "s"⟩ (fun _ _ _ _ => some 4)
      (fun _ => true) { initialState 1000 1 0 with position := fun _ => 10 }
      ⟨0, "A", "s", .LONG, 1⟩) = some (.BUY, 4) ∧
    (some ((DirectionType.BUY), (4 : ℚ)) ≠ some (.SELL, (6 : ℚ))) := by
  constructor
  · norm_num [on_signal, orderOutcome, Except.map, emittedDirQty, initialState, upd]
  · simp

/-- C4 (amended): for a LONG signal on a ticker whose current position is
strictly positive, with `Q` the sizer's target (or the per-ticker fallback)
scaled by the signal strength, `on_signal` constructs a BUY order of
quantity `Q` — stacked on top of the existing position, not a delta to the
target — clamped to `cash · cash_buffer / price` when `Q` exceeds that
bound; when the risk manager permits, that BUY order is what is emitted. -/
theorem C4_long_existing_amended (hist : String → List Bar)
    (P : PortfolioParams) (sizer : ℚ → ℚ → ℕ → String → Option ℚ)
    (allowed : OrderEvent → Bool) (s : PortfolioState) (event : SignalEvent)
    (b : Bar) (hallow : ∀ o, allowed o = true)
    (hmem : event.ticker ∈ P.symbol_list)
    (hlong : event.signal_type = .LONG)
    (hcur : 0 < s.position event.ticker)
    (hbar : (hist event.ticker).getLast? = some b)
    (hpx : 0 < b.close) :
    emittedDirQty (on_signal hist P sizer allowed s event) =
      some (.BUY,
        if s.cash * P.cash_buffer / b.close <
            (match sizer P.risk_per_trade s.total (P.rounding_number event.ticker)
                event.ticker with
              | none => s.position_dict event.ticker
              | some q => q) * event.strength
        then s.cash * P.cash_buffer / b.close
        else
          (match sizer P.risk_per_trade s.total (P.rounding_number event.ticker)
              event.ticker with
            | none => s.position_dict event.ticker
            | some q => q) * event.strength) := by
  have hnotneg : ¬ s.position event.ticker < 0 := not_lt_of_gt hcur
  unfold on_signal
  rw [if_pos hmem]
  simp only [orderOutcome, hbar, hlong, hnotneg, if_false, hpx, if_true,
    hallow, Except.map, emittedDirQty]
  split_ifs <;> rfl

/-- C4 witness: sizer answers `None`, the fallback target is `7`, strength
`2`, position `3`, cash `100`, buffer `1/2`, price `1`: the emitted order is
BUY `14`. -/
theorem C4_long_existing_amended_witness :
    emittedDirQty (on_signal (fun _ => [⟨0, 0, 0, 0, 1, 0⟩])
      ⟨1/2, 1/2, 0, 1/100, ["A"], fun _ => 0, "s"⟩ (fun _ _ _ _ => none)
      (fun _ => true)
      { initialState 100 7 0 with position := fun _ => 3 }
      ⟨0, "A", "s", .LONG, 2⟩) = some (.BUY, 14) := by
  have h := C4_long_existing_amended (fun _ => [⟨0, 0, 0, 0, 1, 0⟩])
    ⟨1/2, 1/2, 0, 1/100, ["A"], fun _ => 0, "s"⟩ (fun _ _ _ _ => none)
    (fun _ => true) { initialState 100 7 0 with position := fun _ => 3 }
    ⟨0, "A", "s", .LONG, 2⟩ ⟨0, 0, 0, 0, 1, 0⟩ (fun _ => rfl) (by simp) rfl
    (by norm_num [initialState]) rfl (by norm_num)
  rw [h]
  norm_num [initialState]

/-- Helper for C5/C1: the mark-to-market loop leaves cash, the margin book
and positions unchanged. -/
theorem markLoop_fixed (hist : String → List Bar) :
    ∀ (l : List String) (s s1 : PortfolioState), markLoop hist l s = .ok s1 →
      s1.cash = s.cash ∧ s1.margin_holdings = s.margin_holdings ∧
        s1.position = s.position := by
  intro l
  induction l with
  | nil =>
      intro s s1 h
      cases h
      exact ⟨rfl, rfl, rfl⟩
  | cons t rest ih =>
      intro s s1 h
      simp only [markLoop] at h
      cases hb : (hist t).getLast? with
      | none => rw [hb] at h; cases h
      | some bar =>
          simp only [hb] at h
          have h2 := ih _ _ h
          exact h2

/-- Helper for C5/C1: with a latest bar for every remaining ticker, the
mark-to-market loop succeeds. -/
theorem markLoop_ok (hist : String → List Bar) :
    ∀ (l : List String) (s : PortfolioState), (∀ t ∈ l, hist t ≠ []) →
      ∃ s1, markLoop hist l s = .ok s1 := by
  intro l
  induction l with
  | nil => intro s _; exact ⟨s, rfl⟩
  | cons t rest ih =>
      intro s h
      have hne : hist t ≠ [] := h t (List.mem_cons_self t rest)
      have hb := List.getLast?_eq_getLast_of_ne_nil hne
      obtain ⟨s1, hs1⟩ := ih
        { s with
          value := upd s.value t (s.position t * ((hist t).getLast hne).close)
          total := s.total + s.position t * ((hist t).getLast hne).close - s.value t
          timestamp := ((hist t).getLast hne).Index }
        (fun x hx => h x (List.mem_cons_of_mem t hx))
      refine ⟨s1, ?_⟩
      simp only [markLoop, hb]
      exact hs1

/-- C5 (amended): the portfolio's interval handler fails with `NegativeCash`
exactly when `cash < 0` (mark-to-market does not change cash), and the
driver loop of `cli.run` contains no handler: the exception aborts the run
for every value of `exception_contd` — the flag is accepted by the CLI but
never consulted, so `exception_contd = 1` does not turn the failure into a
warning that lets the run continue. -/
theorem C5_negative_cash_amended :
    (∀ (hist : String → List Bar) (P : PortfolioParams) (s : PortfolioState),
      (∀ t ∈ P.symbol_list, hist t ≠ []) →
      (on_market hist P s = .error (.negativeCash s.cash) ↔ s.cash < 0)) ∧
    (∀ (flag : ℕ) (ctx : DriverCtx) (fuel : ℕ) (ts : ℚ) (eod : Bool)
      (rest : List Event) (ds : DriverState),
      (∀ t ∈ ctx.P.symbol_list, ctx.hist t ≠ []) →
      ds.portfolio.cash < 0 →
      cliEventLoop flag ctx (fuel + 1) (.market ts eod :: rest) ds =
        .error (.negativeCash ds.portfolio.cash)) := by
  have main : ∀ (hist : String → List Bar) (P : PortfolioParams) (s : PortfolioState),
      (∀ t ∈ P.symbol_list, hist t ≠ []) →
      (on_market hist P s = .error (.negativeCash s.cash) ↔ s.cash < 0) := by
    intro hist P s hbars
    obtain ⟨s1, hs1⟩ := markLoop_ok hist P.symbol_list
      { s with commissions := 0, borrow_costs := 0 } hbars
    have hcash : s1.cash = s.cash := (markLoop_fixed hist _ _ _ hs1).1
    unfold on_market
    simp only [hs1]
    cases hdo : s1.daily_open_value with
    | none =>
        simp only [hdo]
        by_cases hneg : s1.cash < 0
        · rw [if_pos hneg]
          rw [hcash] at hneg
          simp [hcash, hneg]
        · rw [if_neg hneg]
          rw [hcash] at hneg
          simp [hneg]
    | some v =>
        simp only [hdo]
        by_cases hneg : s1.cash < 0
        · rw [if_pos hneg]
          rw [hcash] at hneg
          simp [hcash, hneg]
        · rw [if_neg hneg]
          rw [hcash] at hneg
          simp [hneg]
  refine ⟨main, ?_⟩
  intro flag ctx fuel ts eod rest ds hbars hneg
  have herr : on_market ctx.hist ctx.P ds.portfolio =
      .error (.negativeCash ds.portfolio.cash) :=
    (main ctx.hist ctx.P ds.portfolio hbars).mpr hneg
  simp only [cliEventLoop, cliHandleEvent, herr]

/-- C5 counterexample: with `exception_contd = 1` and negative cash, the
driver run still aborts with the `NegativeCash` error instead of continuing
with a warning. -/
theorem C5_counterexample :
    cliEventLoop 1
      ⟨⟨1, 1/2, 0, 1/100, ["A"], fun _ => 0, "s"⟩,
        (fun _ => [⟨0, 0, 0, 0, 1, 0⟩]), (fun _ => none), (fun _ _ _ => 0),
        (fun _ _ _ _ => none), (fun _ => true), "B"⟩ 3 [.market 0 false]
      ⟨initialState (-1) 1 0, [], false⟩ = .error (.negativeCash (-1)) := by
  have h := C5_negative_cash_amended.2 1
    ⟨⟨1, 1/2, 0, 1/100, ["A"], fun _ => 0, "s"⟩,
      (fun _ => [⟨0, 0, 0, 0, 1, 0⟩]), (fun _ => none), (fun _ _ _ => 0),
      (fun _ _ _ _ => none), (fun _ => true), "B"⟩ 2 0 false []
    ⟨initialState (-1) 1 0, [], false⟩ (by simp) (by norm_num [initialState])
  exact h

/-- C5 witness: the iff at a concrete state with positive cash (no failure)
and the abort at the concrete negative-cash state. -/
theorem C5_negative_cash_amended_witness :
    (on_market (fun _ => [⟨0, 0, 0, 0, 1, 0⟩])
        ⟨1, 1/2, 0, 1/100, ["A"], fun _ => 0, "s"⟩ (initialState 50 1 0) =
      .error (.negativeCash (initialState 50 1 0).cash) ↔
      (initialState 50 1 0).cash < 0) ∧
    cliEventLoop 0
      ⟨⟨1, 1/2, 0, 1/100, ["A"], fun _ => 0, "s"⟩,
        (fun _ => [⟨0, 0, 0, 0, 1, 0⟩]), (fun _ => none), (fun _ _ _ => 0),
        (fun _ _ _ _ => none), (fun _ => true), "B"⟩ 4 [.market 0 true]
      ⟨initialState (-2) 1 0, [], false⟩ = .error (.negativeCash (-2)) :=
  ⟨C5_negative_cash_amended.1 (fun _ => [⟨0, 0, 0, 0, 1, 0⟩])
      ⟨1, 1/2, 0, 1/100, ["A"], fun _ => 0, "s"⟩ (initialState 50 1 0) (by simp),
   C5_negative_cash_amended.2 0
      ⟨⟨1, 1/2, 0, 1/100, ["A"], fun _ => 0, "s"⟩,
        (fun _ => [⟨0, 0, 0, 0, 1, 0⟩]), (fun _ => none), (fun _ _ _ => 0),
        (fun _ _ _ _ => none), (fun _ => true), "B"⟩ 3 0 true []
      ⟨initialState (-2) 1 0, [], false⟩ (by simp) (by norm_num [initialState])⟩

/-- Helper: updating at the queried key. -/
theorem upd_self (f : String → ℚ) (t : String) (v : ℚ) : upd f t v t = v := by
  simp [upd]

/-- Helper: updating elsewhere. -/
theorem upd_ne (f : String → ℚ) (t : String) (v : ℚ) (x : String) (hx : x ≠ t) :
    upd f t v x = f x := by
  simp [upd, hx]

/-- Helper: `sumOver` over the empty list. -/
theorem sumOver_nil (f : String → ℚ) : sumOver [] f = 0 := rfl

/-- Helper: `sumOver` over a cons. -/
theorem sumOver_cons (t : String) (l : List String) (f : String → ℚ) :
    sumOver (t :: l) f = f t + sumOver l f := by
  simp [sumOver]

/-- Helper: the zero dictionary sums to zero. -/
theorem sumOver_zero (l : List String) : sumOver l (fun _ => 0) = 0 := by
  induction l with
  | nil => rfl
  | cons t rest ih => rw [sumOver_cons, ih]; ring

/-- Helper: updating outside the summation range does not change the sum. -/
theorem sumOver_upd_notmem (l : List String) (f : String → ℚ) (t : String)
    (v : ℚ) (ht : t ∉ l) : sumOver l (upd f t v) = sumOver l f := by
  induction l with
  | nil => rfl
  | cons a rest ih =>
      have hat : a ≠ t := fun he => ht (he ▸ List.mem_cons_self a rest)
      rw [sumOver_cons, sumOver_cons, upd_ne f t v a hat,
        ih (fun hm => ht (List.mem_cons_of_mem a hm))]

/-- Helper: updating one key of a duplicate-free summation range shifts the
sum by the difference at that key. -/
theorem sumOver_upd (l : List String) (f : String → ℚ) (t : String) (v : ℚ)
    (hnd : l.Nodup) (ht : t ∈ l) :
    sumOver l (upd f t v) = sumOver l f + v - f t := by
  induction l with
  | nil => cases ht
  | cons a rest ih =>
      rw [List.nodup_cons] at hnd
      rcases List.mem_cons.mp ht with rfl | hmem
      · rw [sumOver_cons, sumOver_cons, sumOver_upd_notmem rest f t v hnd.1,
          upd_self]
        ring
      · have hat : a ≠ t := fun he => hnd.1 (he ▸ hmem)
        rw [sumOver_cons, sumOver_cons, upd_ne f t v a hat, ih hnd.2 hmem]
        ring

/-- Helper: pointwise sums split. -/
theorem sumOver_addfun (l : List String) (f g : String → ℚ) :
    sumOver l (fun t => f t + g t) = sumOver l f + sumOver l g := by
  induction l with
  | nil => simp [sumOver]
  | cons a rest ih =>
      rw [sumOver_cons, sumOver_cons, sumOver_cons, ih]
      ring

/-- Helper for C1: the mark-to-market loop keeps `total − Σ value` constant
(each step changes the ticker's value and `total` by the same delta). -/
theorem markLoop_total (hist : String → List Bar) (syms : List String)
    (hnd : syms.Nodup) :
    ∀ (l : List String) (s s1 : PortfolioState), (∀ t ∈ l, t ∈ syms) →
      markLoop hist l s = .ok s1 →
      s1.total - sumOver syms s1.value = s.total - sumOver syms s.value := by
  intro l
  induction l with
  | nil =>
      intro s s1 _ h
      cases h
      rfl
  | cons t rest ih =>
      intro s s1 hsub h
      simp only [markLoop] at h
      cases hb : (hist t).getLast? with
      | none => rw [hb] at h; cases h
      | some bar =>
          simp only [hb] at h
          have hstep := ih _ _ (fun x hx => hsub x (List.mem_cons_of_mem t hx)) h
          have ht : t ∈ syms := hsub t (List.mem_cons_self t rest)
          have hupd := sumOver_upd syms s.value t (s.position t * bar.close) hnd ht
          rw [hstep]
          show s.total + s.position t * bar.close - s.value t -
              sumOver syms (upd s.value t (s.position t * bar.close)) =
            s.total - sumOver syms s.value
          rw [hupd]
          ring

/-- Helper for C1: `on_market` preserves the holdings invariant. -/
theorem on_market_invariant (hist : String → List Bar) (P : PortfolioParams)
    (s s1 : PortfolioState) (hnd : P.symbol_list.Nodup)
    (hinv : holdingsInvariant P s) (h : on_market hist P s = .ok s1) :
    holdingsInvariant P s1 := by
  unfold on_market at h
  cases hm : markLoop hist P.symbol_list { s with commissions := 0, borrow_costs := 0 } with
  | error e => simp only [hm] at h; cases h
  | ok s2 =>
      simp only [hm] at h
      have hfix := markLoop_fixed hist _ _ _ hm
      have htot0 := markLoop_total hist P.symbol_list hnd P.symbol_list _ _
        (fun _ hx => hx) hm
      have htot : s2.total - sumOver P.symbol_list s2.value =
          s.total - sumOver P.symbol_list s.value := htot0
      have hc : s2.cash = s.cash := hfix.1
      have hmg : s2.margin_holdings = s.margin_holdings := hfix.2.1
      have hinv2 : holdingsInvariant P s2 := by
        unfold holdingsInvariant at hinv ⊢
        rw [hc, hmg]
        linarith [htot, hinv]
      cases hdo : s2.daily_open_value with
      | none =>
          simp only [hdo] at h
          split at h
          · cases h
          · cases h
            unfold holdingsInvariant at hinv2 ⊢
            exact hinv2
      | some v =>
          simp only [hdo] at h
          split at h
          · cases h
          · cases h
            exact hinv2

/-- Helper for C1: `on_fill` preserves the holdings invariant: the fill's
cash delta is booked into `total`, revaluation moves `total` and the
ticker's value together, and margin freezing/release moves money between
`cash` and the margin book only. -/
theorem on_fill_invariant (P : PortfolioParams) (s s1 : PortfolioState)
    (event : FillEvent) (hnd : P.symbol_list.Nodup)
    (hinv : holdingsInvariant P s) (h : on_fill P s event = .ok s1) :
    holdingsInvariant P s1 := by
  unfold on_fill at h
  split at h
  case isTrue hmem =>
    unfold holdingsInvariant at hinv
    simp only [] at h
    split at h
    case isTrue hneg =>
      cases h
      unfold holdingsInvariant
      dsimp only
      rw [sumOver_upd P.symbol_list s.value event.ticker _ hnd hmem,
        sumOver_upd P.symbol_list s.margin_holdings event.ticker _ hnd hmem]
      ring_nf
      ring_nf at hinv
      linarith [hinv]
    case isFalse hneg =>
      cases h
      unfold holdingsInvariant
      dsimp only
      rw [sumOver_upd P.symbol_list s.value event.ticker _ hnd hmem,
        sumOver_upd P.symbol_list s.margin_holdings event.ticker _ hnd hmem]
      ring_nf
      ring_nf at hinv
      linarith [hinv]
  case isFalse hmem => cases h

/-- Helper for C1: the `end_of_day` loop only touches the value and margin
entries of the tickers it processes. -/
theorem eodLoop_frame (hist : String → List Bar) (mm dbr : ℚ) :
    ∀ (l : List String) (s s1 : PortfolioState),
      eodLoop hist mm dbr l s = .ok s1 → ∀ x, x ∉ l →
      s1.value x = s.value x ∧ s1.margin_holdings x = s.margin_holdings x := by
  intro l
  induction l with
  | nil =>
      intro s s1 h x _
      cases h
      exact ⟨rfl, rfl⟩
  | cons t rest ih =>
      intro s s1 h x hx
      have hxt : x ≠ t := fun he => hx (he ▸ List.mem_cons_self t rest)
      have hxr : x ∉ rest := fun hm => hx (List.mem_cons_of_mem t hm)
      simp only [eodLoop] at h
      cases hb : (hist t).getLast? with
      | none => rw [hb] at h; cases h
      | some bar =>
          simp only [hb] at h
          split at h
          case isTrue hneg =>
            have hrec := ih _ _ h x hxr
            refine ⟨?_, ?_⟩
            · rw [hrec.1]; exact upd_ne _ _ _ _ hxt
            · rw [hrec.2]; exact upd_ne _ _ _ _ hxt
          case isFalse hneg =>
            have hrec := ih _ _ h x hxr
            refine ⟨?_, ?_⟩
            · rw [hrec.1]; exact upd_ne _ _ _ _ hxt
            · rw [hrec.2]; exact upd_ne _ _ _ _ hxt

/-- Helper for C1: over a duplicate-free ticker list, the `end_of_day` loop
adds exactly each processed ticker's final value plus final margin to
`total`. -/
theorem eodLoop_total (hist : String → List Bar) (mm dbr : ℚ) :
    ∀ (l : List String) (s s1 : PortfolioState), l.Nodup →
      eodLoop hist mm dbr l s = .ok s1 →
      s1.total = s.total +
        sumOver l (fun t => s1.value t + s1.margin_holdings t) := by
  intro l
  induction l with
  | nil =>
      intro s s1 _ h
      cases h
      rw [sumOver_nil]
      ring
  | cons t rest ih =>
      intro s s1 hnd h
      rw [List.nodup_cons] at hnd
      simp only [eodLoop] at h
      cases hb : (hist t).getLast? with
      | none => rw [hb] at h; cases h
      | some bar =>
          simp only [hb] at h
          split at h
          case isTrue hneg =>
            have htot := ih _ _ hnd.2 h
            have hfr := eodLoop_frame hist mm dbr rest _ _ h t hnd.1
            rw [sumOver_cons, htot, hfr.1, hfr.2]
            dsimp only
            rw [upd_self, upd_self]
            ring
          case isFalse hneg =>
            have htot := ih _ _ hnd.2 h
            have hfr := eodLoop_frame hist mm dbr rest _ _ h t hnd.1
            rw [sumOver_cons, htot, hfr.1, hfr.2]
            dsimp only
            rw [upd_self, upd_self]
            ring

/-- Helper for C1: `end_of_day` re-establishes the holdings invariant
outright (it recomputes `total` from the final values, margins and cash). -/
theorem end_of_day_invariant (hist : String → List Bar) (P : PortfolioParams)
    (s s1 : PortfolioState) (hnd : P.symbol_list.Nodup)
    (h : end_of_day hist P s = .ok s1) : holdingsInvariant P s1 := by
  unfold end_of_day at h
  cases he : eodLoop hist P.maintenance_margin P.daily_borrow_rate
      P.symbol_list { s with total := 0 } with
  | error e => rw [he] at h; cases h
  | ok s2 =>
      rw [he] at h
      cases h
      have htot0 := eodLoop_total hist P.maintenance_margin P.daily_borrow_rate
        P.symbol_list _ _ hnd he
      have htot : s2.total = 0 +
          sumOver P.symbol_list (fun t => s2.value t + s2.margin_holdings t) :=
        htot0
      unfold holdingsInvariant
      dsimp only
      rw [htot, sumOver_addfun]
      ring

/-- Helper: inverting `Except.map` on a successful result. -/
theorem except_map_ok {A B : Type} (f : A → B) (x : Except Err A) (y : B)
    (h : x.map f = .ok y) : Exists (fun a => x = .ok a ∧ f a = y) := by
  cases x with
  | error e => simp [Except.map] at h
  | ok a =>
      refine ⟨a, rfl, ?_⟩
      simpa [Except.map] using h

/-- Helper for C1: `on_signal` leaves cash, total, values and the margin book
unchanged (it only records the last used position size). -/
theorem on_signal_fields (hist : String → List Bar) (P : PortfolioParams)
    (sizer : ℚ → ℚ → ℕ → String → Option ℚ) (allowed : OrderEvent → Bool)
    (s : PortfolioState) (event : SignalEvent) (s1 : PortfolioState)
    (opt : Option OrderEvent)
    (h : on_signal hist P sizer allowed s event = .ok (s1, opt)) :
    s1.cash = s.cash ∧ s1.total = s.total ∧ s1.value = s.value ∧
      s1.margin_holdings = s.margin_holdings := by
  unfold on_signal at h
  split at h
  case isTrue hmem =>
    obtain ⟨a, hx, hfa⟩ := except_map_ok _ _ _ h
    have h1 := congrArg Prod.fst hfa
    subst h1
    exact ⟨rfl, rfl, rfl, rfl⟩
  case isFalse hmem => cases h

/-- Helper for C1: running any operation sequence from an invariant state
keeps the invariant. -/
theorem runOps_invariant (P : PortfolioParams) (hnd : P.symbol_list.Nodup) :
    ∀ (ops : List PortfolioOp) (s s1 : PortfolioState),
      holdingsInvariant P s → runOps P s ops = .ok s1 →
      holdingsInvariant P s1 := by
  intro ops
  induction ops with
  | nil =>
      intro s s1 hinv h
      cases h
      exact hinv
  | cons op rest ih =>
      intro s s1 hinv h
      simp only [runOps] at h
      cases ha : applyOp P s op with
      | error e => rw [ha] at h; cases h
      | ok smid =>
          rw [ha] at h
          refine ih smid s1 ?_ h
          cases op with
          | interval hist => exact on_market_invariant hist P s smid hnd hinv ha
          | signal hist sizer allowed event =>
              simp only [applyOp, Except.map] at ha
              cases hs : on_signal hist P sizer allowed s event with
              | error e => rw [hs] at ha; cases ha
              | ok pair =>
                  rw [hs] at ha
                  cases ha
                  have hf := on_signal_fields hist P sizer allowed s event
                    pair.1 pair.2 (by rw [hs])
                  unfold holdingsInvariant at hinv ⊢
                  rw [hf.1, hf.2.1, hf.2.2.1, hf.2.2.2]
                  exact hinv
          | fill event => exact on_fill_invariant P s smid event hnd hinv ha
          | eod hist => exact end_of_day_invariant hist P s smid hnd ha

/-- C1: for every run of the portfolio — any sequence of `on_interval`,
`on_signal`, `on_fill` and `end_of_day` calls from construction with
`cash = total = initial_capital` and zero positions and margin — every
reached state, in particular the state at the end of every `on_interval`
call, satisfies `total = cash + Σ value(ticker) + Σ margin(ticker)` exactly,
hence to within `1e−6`. -/
theorem C1_holdings_invariant (P : PortfolioParams)
    (initial_capital initial_position_size start_date : ℚ)
    (ops : List PortfolioOp) (s1 : PortfolioState)
    (hnd : P.symbol_list.Nodup)
    (h : runOps P (initialState initial_capital initial_position_size start_date)
      ops = .ok s1) :
    s1.total = s1.cash + sumOver P.symbol_list s1.value +
      sumOver P.symbol_list s1.margin_holdings ∧
    |s1.total - (s1.cash + sumOver P.symbol_list s1.value +
      sumOver P.symbol_list s1.margin_holdings)| ≤ 1/1000000 := by
  have hinit : holdingsInvariant P
      (initialState initial_capital initial_position_size start_date) := by
    unfold holdingsInvariant initialState
    simp [sumOver_zero]
  have hfin := runOps_invariant P hnd ops _ s1 hinit h
  refine ⟨hfin, ?_⟩
  rw [holdingsInvariant] at hfin
  rw [hfin]
  simp

/-- C1 witness: a one-symbol portfolio after the empty run (its construction
state) satisfies the invariant. -/
theorem C1_holdings_invariant_witness :
    (initialState 5 1 0).total =
      (initialState 5 1 0).cash + sumOver ["A"] (initialState 5 1 0).value +
        sumOver ["A"] (initialState 5 1 0).margin_holdings ∧
    |(initialState 5 1 0).total - ((initialState 5 1 0).cash +
      sumOver ["A"] (initialState 5 1 0).value +
      sumOver ["A"] (initialState 5 1 0).margin_holdings)| ≤ 1/1000000 :=
  C1_holdings_invariant ⟨1, 1/2, 0, 1/100, ["A"], fun _ => 0, "s"⟩ 5 1 0 []
    (initialState 5 1 0) (by simp) rfl

end Backtester
